import Mathlib

/-!
# Verification of the PyAMF AMF3 codec (`pyamf/amf3.py`)

A shallow embedding of the AMF3 serializer/deserializer from `pyamf/amf3.py`:
the variable-length 29-bit integer codec (`encode_int` / `decode_int`), the
string-interning context, the encoder's string/list/dict writers and the
decoder's date/byte-array readers, together with theorems about round-trips,
minimality, error behaviour and reference-table discipline.

Byte strings are modelled as `List Nat` (each element one octet), streams as
byte lists consumed from the front, and Python exceptions as explicit error
values.  Machine integers are `Nat`/`Int` with the masks the source applies.
-/

set_option maxHeartbeats 1600000

namespace Amf3

/-- Python exceptions raised by the code under verification. -/
inductive PyErr where
  | overflowError
  | encodeError
  | valueError
  | keyError
  | typeError
  | referenceError
  | recursionError
  deriving DecidableEq, Repr

/-- `MAX_29B_INT` from `amf3.py`: the maximum signed 29-bit integer. -/
def MAX_29B_INT : Int := 0x0FFFFFFF

/-- `MIN_29B_INT` from `amf3.py`: the minimum signed 29-bit integer. -/
def MIN_29B_INT : Int := -0x10000000

/-- The byte-producing core of `encode_int` from `amf3.py`: everything after
the range check and the two's-complement fold (`if n < 0: n += 0x20000000`).
The spec calls this map `encode_u29`.  Mirrors the source statement for
statement: the first conditional halves `n` (keeping `real_value`), the next
two conditionals test the (possibly halved) value, and the final byte is
taken from the restored original value. -/
def encode_u29 (n0 : Nat) : List Nat :=
  let n1 := if n0 > 0x1fffff then n0 >>> 1 else n0
  let bs0 := if n0 > 0x1fffff then [0x80 ||| ((n1 >>> 21) &&& 0xff)] else []
  let bs1 := if n1 > 0x3fff then bs0 ++ [0x80 ||| ((n1 >>> 14) &&& 0xff)] else bs0
  let bs2 := if n1 > 0x7f then bs1 ++ [0x80 ||| ((n1 >>> 7) &&& 0xff)] else bs1
  if n0 > 0x1fffff then bs2 ++ [n0 &&& 0xff] else bs2 ++ [n0 &&& 0x7f]

/-- `encode_int` from `amf3.py`.  The `ENCODED_INT_CACHE` lookup is omitted:
the cache dictionary is never written to anywhere in the module, so the
lookup always raises `KeyError` and falls through.  Out-of-range input
raises `OverflowError`; negative input is folded by adding `2^29`. -/
def encode_int (n : Int) : Except PyErr (List Nat) :=
  if n < MIN_29B_INT ∨ n > MAX_29B_INT then .error .overflowError
  else
    let n' := if n < 0 then n + 0x20000000 else n
    .ok (encode_u29 n'.toNat)

/-- The `while b & 0x80 != 0 and n < 3` loop of `decode_int` from `amf3.py`.
Arguments are the loop state (`n`, `result`, current byte `b`) and the
remaining stream; returns the state at loop exit, or `none` when
`read_uchar` hits the end of the stream. -/
def decode_int_loop (n result b : Nat) : List Nat → Option (Nat × Nat × Nat × List Nat)
  | [] =>
    if b &&& 0x80 ≠ 0 ∧ n < 3 then none
    else some (n, result, b, [])
  | b' :: rest =>
    if b &&& 0x80 ≠ 0 ∧ n < 3 then
      decode_int_loop (n + 1) ((result <<< 7) ||| (b &&& 0x7f)) b' rest
    else some (n, result, b, b' :: rest)

/-- `decode_int` from `amf3.py`, reading from a byte-list stream.  Returns the
decoded integer together with the unconsumed remainder of the stream;
`none` models the stream underrun exception of `read_uchar`. -/
def decode_int (s : List Nat) (signed : Bool) : Option (Int × List Nat) :=
  match s with
  | [] => none
  | b0 :: rest =>
    match decode_int_loop 0 0 b0 rest with
    | none => none
    | some (n, result, b, s') =>
      if n < 3 then
        some (((((result <<< 7) ||| b) : Nat) : Int), s')
      else
        let r := (result <<< 8) ||| b
        if r &&& 0x10000000 ≠ 0 then
          if signed then
            some ((r : Int) - 0x20000000, s')
          else
            some ((((r <<< 1) + 1 : Nat) : Int), s')
        else
          some ((r : Int), s')

/-- `REFERENCE_BIT` from `amf3.py`. -/
def REFERENCE_BIT : Nat := 0x01

/-- `TYPE_INTEGER` marker byte from `amf3.py`. -/
def TYPE_INTEGER : Nat := 0x04

/-- `TYPE_NUMBER` marker byte from `amf3.py`. -/
def TYPE_NUMBER : Nat := 0x05

/-- `TYPE_STRING` marker byte from `amf3.py`. -/
def TYPE_STRING : Nat := 0x06

/-- `TYPE_ARRAY` marker byte from `amf3.py`. -/
def TYPE_ARRAY : Nat := 0x09

/-- `TYPE_XML` (legacy XML document) marker byte from `amf3.py`. -/
def TYPE_XML : Nat := 0x07

/-- `TYPE_DATE` marker byte from `amf3.py`. -/
def TYPE_DATE : Nat := 0x08

/-- `TYPE_XMLSTRING` marker byte from `amf3.py`. -/
def TYPE_XMLSTRING : Nat := 0x0B

/-- `TYPE_BYTEARRAY` marker byte from `amf3.py`. -/
def TYPE_BYTEARRAY : Nat := 0x0C

/-- String reference table operation `getReferenceTo` (the table class
`codec.IndexedCollection` is not in `src/`; modelled from the spec:
a ReferenceTable is an insertion-ordered list indexed from 0, looked up by
value equality, with `-1` signalling absence, as `Context.getStringReference`
returns it). -/
def getStringReference (tbl : List (List Nat)) (s : List Nat) : Int :=
  match tbl.indexOf? s with
  | some i => (i : Int)
  | none => -1

/-- `Context.addString` from `amf3.py`: the `isinstance(s, basestring)` check
is enforced by typing; the empty string is never interned (`-1` is returned
and the table is untouched); otherwise `strings.append` (modelled from the
spec: return the existing index if present, else append at the end). -/
def addString (s : List Nat) (tbl : List (List Nat)) : Int × List (List Nat) :=
  if s.length = 0 then (-1, tbl)
  else
    match tbl.indexOf? s with
    | some i => ((i : Int), tbl)
    | none => ((tbl.length : Int), tbl ++ [s])

namespace Decoder

/-- Values the modelled decoder stores in the object reference table. -/
inductive DObj where
  /-- A decoded `Date`: the 8 raw bytes of the big-endian millisecond double
  and the decoder's `timezone_offset` applied to it (`util.get_datetime` and
  float decoding are outside the claims under test, which concern effect
  order, so the double is kept as raw bytes). -/
  | date (ms : List Nat) (tz : Option Int)
  /-- A decoded `ByteArray` with its `compressed` flag. -/
  | bytes (payload : List Nat) (compressed : Bool)
  /-- A decoded XML document (`util.ET.fromstring` is outside `src/`; the
  tree is kept as its raw byte string). -/
  | xml (s : List Nat)
  /-- A decoded dense array (python list). -/
  | arr (elems : List DObj)
  /-- A decoded `pyamf.MixedArray`: associative part and dense part. -/
  | mixed (assoc : List (List Nat × DObj)) (dense : List DObj)
  /-- A decoded object instance: the class alias name and the applied
  attributes. -/
  | obj (name : List Nat) (attrs : List (List Nat × DObj))

/-- One observable effect of a decoder method, in program order. -/
inductive DecEvent where
  /-- `k` bytes were consumed from the stream. -/
  | readBytes (k : Nat)
  /-- An object was appended to the object reference table. -/
  | addObject
  deriving DecidableEq, Repr

/-- Decoder state: the remaining stream, the `Context` string and object
reference tables, and the trace of effects (used to state the order in
which a reader touches the stream and the tables). -/
structure DecState where
  stream : List Nat
  strings : List (List Nat)
  objects : List DObj
  trace : List DecEvent

/-- `Decoder.readInteger(signed)` from `amf3.py`: `decode_int` on the
decoder's stream; the trace records how many bytes the read consumed. -/
def readInteger (signed : Bool) (st : DecState) : Option (Int × DecState) :=
  match decode_int st.stream signed with
  | none => none
  | some (v, rest) =>
    some (v, { st with
      stream := rest
      trace := st.trace ++ [.readBytes (st.stream.length - rest.length)] })

/-- `stream.read(k)`: take `k` bytes off the stream (`none` on underrun). -/
def readStreamBytes (k : Nat) (st : DecState) : Option (List Nat × DecState) :=
  if k ≤ st.stream.length then
    some (st.stream.take k, { st with
      stream := st.stream.drop k
      trace := st.trace ++ [.readBytes k] })
  else none

/-- `Context.addObject` (the table lives in `codec.Context`, not in `src/`;
modelled from the spec: `append(x)` appends and returns the new index).
The trace records the append. -/
def addObject (o : DObj) (st : DecState) : Nat × DecState :=
  (st.objects.length,
   { st with
     objects := st.objects ++ [o]
     trace := st.trace ++ [.addObject] })

/-- `Context.getString` (from `codec.Context`, not in `src/`; modelled from
the spec: `getByIndex` on the string table). -/
def getString (i : Nat) (st : DecState) : Option (List Nat) := st.strings.get? i

/-- `Decoder._readLength` from `amf3.py`:
`x = decode_int(stream, False); (x >> 1, x & REFERENCE_BIT == 0)`. -/
def _readLength (st : DecState) : Option ((Nat × Bool) × DecState) :=
  match readInteger false st with
  | none => none
  | some (x, st1) => some ((x.toNat >>> 1, x.toNat &&& REFERENCE_BIT == 0), st1)

/-- `Decoder.readUnicode` from `amf3.py`: read the length/reference header;
a reference returns the interned string; an inline length of 0 returns the
empty string without interning; otherwise read the bytes, intern them and
return them.  `getUnicodeForString` (from `pyamf.codec`, not in `src/`)
converts byte strings to unicode; strings are byte lists here, so it is the
identity.  (`Decoder.readString` is the same code without that conversion.) -/
def readUnicode (st : DecState) : Option (List Nat × DecState) :=
  match _readLength st with
  | none => none
  | some ((length, is_reference), st1) =>
    if is_reference then
      match getString length st1 with
      | none => none
      | some s => some (s, st1)
    else if length = 0 then some ([], st1)
    else
      match readStreamBytes length st1 with
      | none => none
      | some (result, st2) =>
        some (result, { st2 with strings := (addString result st2.strings).2 })

end Decoder

namespace Encoder

/-- Keys of a Python `dict` being encoded: `int`/`long`, `str`/`unicode`
(byte strings), or any other hashable object (which `writeDict` rejects
with `ValueError`), identified here by an opaque tag. -/
inductive PyKey where
  | pint (n : Int)
  | pstr (s : List Nat)
  | other (tag : Nat)
  deriving DecidableEq, Repr

/-- Python values covered by the encoder fragment under verification. -/
inductive PyValue where
  | pint (n : Int)
  | pstr (s : List Nat)
  | plist (xs : List PyValue)
  | pdict (entries : List (PyKey × PyValue))
  /-- A `datetime.datetime`, carried as the 8-byte IEEE-754 image of
  `ms * 1000.0` that `writeDate` emits (`util.get_timestamp` and
  `write_double` are outside `src/`). -/
  | pdate (payload : List Nat)
  /-- A `ByteArray`, carried as its buffer `str(n)`. -/
  | pbytes (buf : List Nat)
  /-- An XML document, carried as its serialised byte string
  (`util.ET.tostring` is outside `src/`). -/
  | pxml (s : List Nat)

/-- Structural equality on `PyValue` (used for the table lookups; see the
note on `EncState` about identity versus equality). -/
def PyValue.beq : PyValue → PyValue → Bool
  | .pint a, .pint b => a == b
  | .pstr a, .pstr b => a == b
  | .plist [], .plist [] => true
  | .plist (x :: xs), .plist (y :: ys) =>
    PyValue.beq x y && PyValue.beq (.plist xs) (.plist ys)
  | .pdict [], .pdict [] => true
  | .pdict ((k, v) :: es), .pdict ((k', v') :: fs) =>
    k == k' && PyValue.beq v v' && PyValue.beq (.pdict es) (.pdict fs)
  | .pdate a, .pdate b => a == b
  | .pbytes a, .pbytes b => a == b
  | .pxml a, .pxml b => a == b
  | _, _ => false
termination_by a _ => sizeOf a
decreasing_by all_goals simp_wf <;> omega

instance : BEq PyValue := ⟨PyValue.beq⟩

/-- Encoder state: the bytes written so far and the `Context` reference
tables.  The object table (`codec.Context`, not in `src/`) follows the
spec's ReferenceTable description: an insertion-ordered list indexed from 0.
The source looks objects up by identity (`id()`); here lookup is by value,
which coincides with identity for the tree-shaped (alias-free) values used
in the theorems below. -/
structure EncState where
  stream : List Nat
  strings : List (List Nat)
  objects : List PyValue

/-- Encoder configuration: the `string_references` and `use_proxies`
attributes of `Encoder.__init__`, plus the two external helpers the claims
never exercise, kept abstract: `getProxyForObject` (from `pyamf.flex`, not
in `src/`) and the IEEE-754 double writer used by the `writeNumber`
fallback of `writeInteger`. -/
structure EncCfg where
  string_references : Bool
  use_proxies : Bool
  getProxyForObject : PyValue → PyValue
  writeDouble : Int → List Nat
  /-- `Context.getLegacyXMLReference` (the legacy-XML table lives in
  `codec.Context`, not in `src/`): index in the legacy table or `-1`. -/
  getLegacyXMLReference : PyValue → Int

/-- `stream.write(bs)`: append bytes to the output stream. -/
def writeBytes (bs : List Nat) (st : EncState) : EncState :=
  { st with stream := st.stream ++ bs }

/-- `Context.getObjectReference` (via `codec.Context`, not in `src/`;
modelled from the spec: index in the object table or `-1`). -/
def getObjectReference (st : EncState) (v : PyValue) : Int :=
  match st.objects.indexOf? v with
  | some i => (i : Int)
  | none => -1

/-- `Context.addObject` on the encoder side (see `getObjectReference`). -/
def ctxAddObject (v : PyValue) (st : EncState) : EncState :=
  { st with objects := st.objects ++ [v] }

/-- `Encoder._writeInteger` from `amf3.py`:
`self.stream.write(encode_int(n))`; an `OverflowError` from `encode_int`
propagates with the stream unwritten. -/
def _writeInteger (n : Int) (st : EncState) : Except (PyErr × EncState) EncState :=
  match encode_int n with
  | .error e => .error (e, st)
  | .ok bs => .ok (writeBytes bs st)

/-- `Encoder._writeString` from `amf3.py`: with string references enabled,
an interned string is emitted as the bare header `ref << 1`; otherwise the
string is interned first, then the header `(len << 1) | REFERENCE_BIT` and
the raw bytes follow.  Table indices are non-negative, so `ref << 1` is
written `2 * ref`. -/
def _writeString (string_references : Bool) (s : List Nat) (st : EncState) :
    Except (PyErr × EncState) EncState :=
  let refFound : Option Int :=
    if string_references then
      let ref := getStringReference st.strings s
      if ref ≠ -1 then some ref else none
    else none
  match refFound with
  | some ref => _writeInteger (2 * ref) st
  | none =>
    let st1 :=
      if string_references then { st with strings := (addString s st.strings).2 }
      else st
    match _writeInteger (((s.length <<< 1) ||| REFERENCE_BIT : Nat) : Int) st1 with
    | .error e => .error e
    | .ok st2 => .ok (writeBytes s st2)

/-- `Encoder.writeString` from `amf3.py`: optional `TYPE_STRING` marker,
then the raw string body. -/
def writeString (string_references : Bool) (writeType : Bool) (s : List Nat)
    (st : EncState) : Except (PyErr × EncState) EncState :=
  let st1 := if writeType then writeBytes [TYPE_STRING] st else st
  _writeString string_references s st1

/-- `Encoder.writeUnicode` from `amf3.py`: optional `TYPE_STRING` marker; an
empty unicode string short-circuits to the single byte `REFERENCE_BIT`
without touching the string table; otherwise `getStringForUnicode` (from
`pyamf.codec`, not in `src/`: UTF-8 conversion, the identity on the byte
strings used here) and `_writeString`. -/
def writeUnicode (string_references : Bool) (writeType : Bool) (u : List Nat)
    (st : EncState) : Except (PyErr × EncState) EncState :=
  let st1 := if writeType then writeBytes [TYPE_STRING] st else st
  if u = [] then .ok (writeBytes [REFERENCE_BIT] st1)
  else _writeString string_references u st1

/-- `Encoder.writeInteger` from `amf3.py`: out-of-range values fall back to
`writeNumber(float(n))` (marker `TYPE_NUMBER` and the 8-byte double image
from the configuration); in-range values are emitted as `TYPE_INTEGER`
followed by `encode_int`. -/
def writeInteger (cfg : EncCfg) (n : Int) (st : EncState) :
    Except (PyErr × EncState) EncState :=
  if n < MIN_29B_INT ∨ n > MAX_29B_INT then
    .ok (writeBytes (TYPE_NUMBER :: cfg.writeDouble n) st)
  else
    let st1 := writeBytes [TYPE_INTEGER] st
    match encode_int n with
    | .error e => .error (e, st1)
    | .ok bs => .ok (writeBytes bs st1)

/-- `Encoder.writeDate` from `amf3.py` (on a `datetime.datetime`; the
`datetime.time` guard raises before any effect and is outside this value
domain): `TYPE_DATE` marker, object-reference check; an unreferenced date
is registered in the object table, then the inline flag `REFERENCE_BIT`
and the 8-byte double image (the timezone adjustment and
`util.get_timestamp` are folded into `payload`, see `PyValue.pdate`) are
written. -/
def writeDate (payload : List Nat) (st : EncState) :
    Except (PyErr × EncState) EncState :=
  let st1 := writeBytes [TYPE_DATE] st
  let ref := getObjectReference st1 (.pdate payload)
  if ref ≠ -1 then _writeInteger (2 * ref) st1
  else
    .ok (writeBytes payload
      (writeBytes [REFERENCE_BIT] (ctxAddObject (.pdate payload) st1)))

/-- `Encoder.writeByteArray` from `amf3.py`: `TYPE_BYTEARRAY` marker,
object-reference check; an unreferenced `ByteArray` is registered in the
object table, then the length header `l << 1 | REFERENCE_BIT` and the raw
buffer are written. -/
def writeByteArray (buf : List Nat) (st : EncState) :
    Except (PyErr × EncState) EncState :=
  let st1 := writeBytes [TYPE_BYTEARRAY] st
  let ref := getObjectReference st1 (.pbytes buf)
  if ref ≠ -1 then _writeInteger (2 * ref) st1
  else
    let st2 := ctxAddObject (.pbytes buf) st1
    match _writeInteger (((buf.length <<< 1) ||| REFERENCE_BIT : Nat) : Int)
        st2 with
    | .error e => .error e
    | .ok st3 => .ok (writeBytes buf st3)

/-- `Encoder.writeXML` from `amf3.py`: marker `TYPE_XMLSTRING`, or
`TYPE_XML` when the document is in the legacy-XML table
(`getLegacyXMLReference`); object-reference check; an unreferenced
document is registered in the object table and only then is its
serialisation written by `_writeString`. -/
def writeXML (cfg : EncCfg) (s : List Nat) (st : EncState) :
    Except (PyErr × EncState) EncState :=
  let i := cfg.getLegacyXMLReference (.pxml s)
  let st1 :=
    if i = -1 then writeBytes [TYPE_XMLSTRING] st
    else writeBytes [TYPE_XML] st
  let ref := getObjectReference st1 (.pxml s)
  if ref ≠ -1 then _writeInteger (2 * ref) st1
  else _writeString cfg.string_references s (ctxAddObject (.pxml s) st1)

/-- Python `str(x)` for an integer: decimal digits, `-`-prefixed when
negative, as a byte string. -/
def pyStrOf (n : Int) : List Nat :=
  if n < 0 then 45 :: (Nat.toDigits 10 n.natAbs).map Char.toNat
  else (Nat.toDigits 10 n.toNat).map Char.toNat

/-- `'' in n`: does the mapping contain the empty string among its keys? -/
def dictContainsEmptyKey (entries : List (PyKey × PyValue)) : Bool :=
  entries.any fun e => e.1 == PyKey.pstr []

/-- `n[k]`: dictionary lookup (`none` models `KeyError`).  Entries are
assumed key-deduplicated, as a Python `dict` is. -/
def dictGet (entries : List (PyKey × PyValue)) (k : PyKey) : Option PyValue :=
  (entries.find? fun e => e.1 == k).map fun e => e.2

/-- The key-partition loop of `writeDict`: integer keys and string keys in
iteration order; any other key raises `ValueError` (`none`). -/
def partitionKeys : List PyKey → List Int → List PyKey →
    Option (List Int × List PyKey)
  | [], ik, sk => some (ik, sk)
  | .pint n :: ks, ik, sk => partitionKeys ks (ik ++ [n]) sk
  | .pstr s :: ks, ik, sk => partitionKeys ks ik (sk ++ [.pstr s])
  | .other _ :: ks, _, _ => none

/-- CPython semantics of `for x in L:` whose body conditionally does
`S.append(f(x)); del L[L.index(x)]`: the loop iterator's index advances
even when the current element is deleted, so a deletion makes the loop skip
the element that slid into the freed slot.  `fuel` starts at `L.length`,
an upper bound on the number of iterations (the index grows each step and
the list never grows). -/
def pyForDel (P : Int → Bool) (f : Int → PyKey) :
    Nat → Nat → List Int → List PyKey → List Int × List PyKey
  | 0, _, L, S => (L, S)
  | fuel + 1, i, L, S =>
    if h : i < L.length then
      let x := L.get ⟨i, h⟩
      if P x then
        pyForDel P f fuel (i + 1) (L.eraseIdx (L.indexOf x)) (S ++ [f x])
      else
        pyForDel P f fuel (i + 1) L S
    else (L, S)

/-- Ascending insertion of `x` into a sorted list (helper for `pySort`). -/
def insertSorted (x : Int) : List Int → List Int
  | [] => [x]
  | y :: ys => if x ≤ y then x :: y :: ys else y :: insertSorted x ys

/-- `int_keys.sort()`: ascending sort of the integer keys (insertion sort;
the keys of a dict are distinct, so any ascending sort agrees with
CPython's). -/
def pySort : List Int → List Int
  | [] => []
  | x :: xs => insertSorted x (pySort xs)

/-- The whole key-classification pipeline of `writeDict` between
`addObject` and the first stream write: partition into int/str keys
(`ValueError` on any other key), the (vacuous) `l < x <= 0` deletion
loop, `int_keys.sort()`, and the reclassification of all int keys as
decimal strings when the least one is non-zero.  Returns the final
`(int_keys, str_keys)`. -/
def dictKeySplit (ks : List PyKey) : Option (List Int × List PyKey) :=
  match partitionKeys ks [] [] with
  | none => none
  | some iksk =>
    let l := iksk.1.length
    let iksk1 := pyForDel
      (fun x => decide ((l : Int) < x) && decide (x ≤ 0))
      (fun x => PyKey.pint x) iksk.1.length 0 iksk.1 iksk.2
    let ik2 := pySort iksk1.1
    match ik2 with
    | [] => some (ik2, iksk1.2)
    | k0 :: _ =>
      if k0 ≠ 0 then
        some (pyForDel (fun _ => true) (fun x => PyKey.pstr (pyStrOf x))
          ik2.length 0 ik2 iksk1.2)
      else some (ik2, iksk1.2)

/-- The call structure of the mutually recursive encoder methods
`writeElement` / `writeProxy` / `writeList` / `writeDict` and their
element-emission loops, written as a single fuel-indexed interpreter so
that it stays structurally recursive (and therefore executable in proofs).
Each constructor is one source-level activation. -/
inductive EncCall where
  | element (v : PyValue)
  | proxyCall (v : PyValue)
  | listCall (up : Bool) (xs : List PyValue)
  | dictCall (up : Bool) (entries : List (PyKey × PyValue))
  | seqElems (xs : List PyValue)
  | strPairs (entries : List (PyKey × PyValue)) (ks : List PyKey)
  | intVals (entries : List (PyKey × PyValue)) (ks : List Int)

/-- The encoder bodies from `amf3.py`, one `EncCall` step at a time; `fuel`
bounds the recursion depth (exhaustion models Python's `RecursionError`).
`writeElement` dispatch (`pyamf.codec`, not in `src/`) is modelled from the
spec's type→writer table. -/
def encWrite (cfg : EncCfg) : Nat → EncCall → EncState →
    Except (PyErr × EncState) EncState
  | 0, _, st => .error (.recursionError, st)
  | fuel + 1, call, st =>
    match call with
    | .element v =>
      match v with
      | .pint n => writeInteger cfg n st
      | .pstr s => writeString cfg.string_references true s st
      | .plist xs => encWrite cfg fuel (.listCall cfg.use_proxies xs) st
      | .pdict es => encWrite cfg fuel (.dictCall cfg.use_proxies es) st
      | .pdate p => writeDate p st
      | .pbytes b => writeByteArray b st
      | .pxml s => writeXML cfg s st
    | .proxyCall v =>
      match cfg.getProxyForObject v with
      | .plist xs => encWrite cfg fuel (.listCall false xs) st
      | .pdict es => encWrite cfg fuel (.dictCall false es) st
      | p => encWrite cfg fuel (.element p) st
    | .listCall up xs =>
      if up then encWrite cfg fuel (.proxyCall (.plist xs)) st
      else
        let st1 := writeBytes [TYPE_ARRAY] st
        let ref := getObjectReference st1 (.plist xs)
        if ref ≠ -1 then _writeInteger (2 * ref) st1
        else
          let st2 := ctxAddObject (.plist xs) st1
          match _writeInteger (((xs.length <<< 1) ||| REFERENCE_BIT : Nat) : Int)
              st2 with
          | .error e => .error e
          | .ok st3 => encWrite cfg fuel (.seqElems xs) (writeBytes [0x01] st3)
    | .seqElems [] => .ok st
    | .seqElems (x :: xs) =>
      match encWrite cfg fuel (.element x) st with
      | .error e => .error e
      | .ok st1 => encWrite cfg fuel (.seqElems xs) st1
    | .dictCall up entries =>
      if dictContainsEmptyKey entries then .error (.encodeError, st)
      else if up then encWrite cfg fuel (.proxyCall (.pdict entries)) st
      else
        let st1 := writeBytes [TYPE_ARRAY] st
        let ref := getObjectReference st1 (.pdict entries)
        if ref ≠ -1 then _writeInteger (2 * ref) st1
        else
          let st2 := ctxAddObject (.pdict entries) st1
          match dictKeySplit (entries.map fun e => e.1) with
          | none => .error (.valueError, st2)
          | some iksk3 =>
            match _writeInteger
                (((iksk3.1.length <<< 1) ||| REFERENCE_BIT : Nat) : Int) st2 with
            | .error e => .error e
            | .ok st3 =>
              match encWrite cfg fuel (.strPairs entries iksk3.2) st3 with
              | .error e => .error e
              | .ok st4 =>
                encWrite cfg fuel (.intVals entries iksk3.1) (writeBytes [0x01] st4)
    | .strPairs _ [] => .ok st
    | .strPairs entries (k :: ks) =>
      match k with
      | .pstr s =>
        match _writeString cfg.string_references s st with
        | .error e => .error e
        | .ok st1 =>
          match dictGet entries k with
          | none => .error (.keyError, st1)
          | some v =>
            match encWrite cfg fuel (.element v) st1 with
            | .error e => .error e
            | .ok st2 => encWrite cfg fuel (.strPairs entries ks) st2
      | _ => .error (.typeError, st)
    | .intVals _ [] => .ok st
    | .intVals entries (k :: ks) =>
      match dictGet entries (.pint k) with
      | none => .error (.keyError, st)
      | some v =>
        match encWrite cfg fuel (.element v) st with
        | .error e => .error e
        | .ok st1 => encWrite cfg fuel (.intVals entries ks) st1

/-- `Encoder.writeElement` (dispatch per value type). -/
def writeElement (cfg : EncCfg) (fuel : Nat) (v : PyValue) (st : EncState) :
    Except (PyErr × EncState) EncState :=
  encWrite cfg fuel (.element v) st

/-- `Encoder.writeDict` from `amf3.py`. -/
def writeDict (cfg : EncCfg) (fuel : Nat) (up : Bool)
    (entries : List (PyKey × PyValue)) (st : EncState) :
    Except (PyErr × EncState) EncState :=
  encWrite cfg fuel (.dictCall up entries) st

/-- The default encoder configuration: proxies disabled
(`use_proxies_default = False` in `amf3.py`), string references enabled
(`Encoder.__init__` default).  No claim exercises the proxy map or the
double writer; they are set to trivial values. -/
def defaultCfg : EncCfg :=
  { string_references := true
    use_proxies := false
    getProxyForObject := fun v => v
    writeDouble := fun _ => List.replicate 8 0
    getLegacyXMLReference := fun _ => -1 }

/-- A fresh encoder state: empty stream, empty reference tables. -/
def freshEnc : EncState := ⟨[], [], []⟩

end Encoder

/-- The 29-bit value accumulated by the `decode_int` loop from a 4-byte wire
form `c0 c1 c2 d`: seven payload bits from each of the first three bytes and
all eight bits of the fourth. -/
def u29_acc (c0 c1 c2 d : Nat) : Nat :=
  ((c0 % 128 * 128 + c1 % 128) * 128 + c2 % 128) * 256 + d

example : encode_u29 0x10000000 = [0xC0, 0x80, 0x80, 0x00] := by decide
example : decode_int [0xC0, 0x80, 0x80, 0x00] false = some (0x20000001, []) := rfl
example : decode_int [0xC0, 0x80, 0x80, 0x00] true = some (-0x10000000, []) := rfl
example : encode_int 1 = .ok [0x01] := rfl
example : encode_int (-1) = .ok [0xFF, 0xFF, 0xFF, 0xFF] := rfl
example : decode_int [0xFF, 0xFF, 0xFF, 0xFF] true = some (-1, []) := rfl
example : encode_int 0x10000000 = .error .overflowError := rfl

/-! ### Arithmetic characterisation of the bit operations used by the codec -/

lemma and_0x7f (x : Nat) : x &&& 0x7f = x % 128 := by
  have h := Nat.and_pow_two_sub_one_eq_mod x 7
  norm_num at h
  exact h

lemma and_0xff (x : Nat) : x &&& 0xff = x % 256 := by
  have h := Nat.and_pow_two_sub_one_eq_mod x 8
  norm_num at h
  exact h

lemma shr1 (x : Nat) : x >>> 1 = x / 2 := by
  have h := Nat.shiftRight_eq_div_pow x 1
  norm_num at h
  exact h

lemma shr7 (x : Nat) : x >>> 7 = x / 128 := by
  have h := Nat.shiftRight_eq_div_pow x 7
  norm_num at h
  exact h

lemma shr14 (x : Nat) : x >>> 14 = x / 16384 := by
  have h := Nat.shiftRight_eq_div_pow x 14
  norm_num at h
  exact h

lemma shr21 (x : Nat) : x >>> 21 = x / 2097152 := by
  have h := Nat.shiftRight_eq_div_pow x 21
  norm_num at h
  exact h

lemma shl1 (x : Nat) : x <<< 1 = x * 2 := by
  have h := Nat.shiftLeft_eq x 1
  norm_num at h
  exact h

lemma shl7 (x : Nat) : x <<< 7 = x * 128 := by
  have h := Nat.shiftLeft_eq x 7
  norm_num at h
  exact h

lemma shl8 (x : Nat) : x <<< 8 = x * 256 := by
  have h := Nat.shiftLeft_eq x 8
  norm_num at h
  exact h

lemma or_0x80_eq (x : Nat) (h : x < 256) : 0x80 ||| x = 128 + x % 128 := by
  rcases Nat.lt_or_ge x 128 with hx | hx
  · have h1 : (2 : Nat) ^ 7 * 1 + x = 2 ^ 7 * 1 ||| x :=
      Nat.mul_add_lt_is_or (by omega : x < 2 ^ 7) 1
    norm_num at h1
    rw [Nat.mod_eq_of_lt hx]
    omega
  · have hr : x % 128 < 128 := Nat.mod_lt _ (by omega)
    have hx128 : x = 128 + x % 128 := by omega
    have h1 : (2 : Nat) ^ 7 * 1 + x % 128 = 2 ^ 7 * 1 ||| x % 128 :=
      Nat.mul_add_lt_is_or (by omega : x % 128 < 2 ^ 7) 1
    norm_num at h1
    have key : (0x80 : Nat) ||| x = 128 ||| (128 ||| x % 128) := by
      rw [← h1, ← hx128]
    rw [key, ← Nat.or_assoc, Nat.or_self, ← h1]

lemma shiftLeft_or_eq {k x : Nat} (a : Nat) (hx : x < 2 ^ k) :
    (a <<< k) ||| x = a * 2 ^ k + x := by
  rw [Nat.shiftLeft_eq, Nat.mul_comm a (2 ^ k), ← Nat.mul_add_lt_is_or hx a,
    Nat.mul_comm (2 ^ k) a]

lemma and_0x80_eq_zero {x : Nat} (h : x < 128) : x &&& 0x80 = 0 := by
  have h1 : x &&& 2 ^ 7 = (x.testBit 7).toNat * 2 ^ 7 := Nat.and_two_pow x 7
  have h2 : x.testBit 7 = false := Nat.testBit_lt_two_pow (by norm_num; omega)
  rw [h2] at h1
  norm_num at h1
  exact h1

lemma and_0x80_ne_zero {x : Nat} (h1 : 128 ≤ x) (h2 : x < 256) : x &&& 0x80 ≠ 0 := by
  have ha : x &&& 2 ^ 7 = (x.testBit 7).toNat * 2 ^ 7 := Nat.and_two_pow x 7
  have hb : x.testBit 7 = true := by
    rw [Nat.testBit_to_div_mod]
    have hd : x / 2 ^ 7 = 1 := by omega
    rw [hd]
    rfl
  rw [hb] at ha
  norm_num at ha
  omega

lemma and_top_bit {x : Nat} (h : x < 2 ^ 29) :
    x &&& 0x10000000 = if 2 ^ 28 ≤ x then 0x10000000 else 0 := by
  have ha : x &&& 2 ^ 28 = (x.testBit 28).toNat * 2 ^ 28 := Nat.and_two_pow x 28
  rcases Nat.lt_or_ge x (2 ^ 28) with hx | hx
  · have hb : x.testBit 28 = false := Nat.testBit_lt_two_pow hx
    rw [hb] at ha
    norm_num at ha
    rw [if_neg (by omega)]
    omega
  · have hb : x.testBit 28 = true := by
      rw [Nat.testBit_to_div_mod]
      have hd : x / 2 ^ 28 = 1 := by omega
      rw [hd]
      rfl
    rw [hb] at ha
    norm_num at ha
    rw [if_pos (by omega)]
    omega

/-! ### Shape of the bytes produced by `encode_u29` on each length range -/

lemma encode_u29_len1 {u : Nat} (h : u ≤ 0x7f) : encode_u29 u = [u] := by
  have h1 : ¬ (u > 0x1fffff) := by omega
  have h2 : ¬ (u > 0x3fff) := by omega
  have h3 : ¬ (u > 0x7f) := by omega
  simp only [encode_u29, h1, h2, h3, if_false, List.nil_append]
  rw [and_0x7f, Nat.mod_eq_of_lt (by omega)]

lemma encode_u29_len2 {u : Nat} (hl : 0x7f < u) (hh : u ≤ 0x3fff) :
    encode_u29 u = [128 + u / 128, u % 128] := by
  have h1 : ¬ (u > 0x1fffff) := by omega
  have h2 : ¬ (u > 0x3fff) := by omega
  have h3 : u > 0x7f := hl
  simp only [encode_u29, h1, h2, h3, if_false, if_true, List.nil_append]
  rw [shr7, and_0xff, and_0x7f, or_0x80_eq (u / 128 % 256) (by omega)]
  have e1 : (u / 128 % 256) % 128 = u / 128 := by omega
  rw [e1]
  rfl

lemma encode_u29_len3 {u : Nat} (hl : 0x3fff < u) (hh : u ≤ 0x1fffff) :
    encode_u29 u = [128 + u / 16384, 128 + u / 128 % 128, u % 128] := by
  have h1 : ¬ (u > 0x1fffff) := by omega
  have h2 : u > 0x3fff := hl
  have h3 : u > 0x7f := by omega
  simp only [encode_u29, h1, h2, h3, if_false, if_true, List.nil_append,
    List.cons_append, List.append_nil]
  rw [shr14, shr7, and_0xff, and_0xff, and_0x7f,
    or_0x80_eq (u / 16384 % 256) (by omega), or_0x80_eq (u / 128 % 256) (by omega)]
  have e1 : (u / 16384 % 256) % 128 = u / 16384 := by omega
  have e2 : (u / 128 % 256) % 128 = u / 128 % 128 := by omega
  rw [e1, e2]

lemma encode_u29_len4 {u : Nat} (hl : 0x1fffff < u) (hh : u < 2 ^ 29) :
    encode_u29 u =
      [128 + u / 4194304, 128 + u / 32768 % 128, 128 + u / 256 % 128, u % 256] := by
  have h1 : u > 0x1fffff := hl
  have h2 : u >>> 1 > 0x3fff := by rw [shr1]; omega
  have h3 : u >>> 1 > 0x7f := by rw [shr1]; omega
  simp only [encode_u29, h1, h2, h3, if_true, List.cons_append, List.nil_append,
    List.append_nil]
  rw [shr1, shr21, shr14, shr7, and_0xff, and_0xff, and_0xff, and_0xff,
    or_0x80_eq (u / 2 / 2097152 % 256) (by omega),
    or_0x80_eq (u / 2 / 16384 % 256) (by omega),
    or_0x80_eq (u / 2 / 128 % 256) (by omega)]
  have e0 : u / 2 / 2097152 % 256 % 128 = u / 4194304 := by omega
  have e2 : u / 2 / 16384 % 256 % 128 = u / 32768 % 128 := by omega
  have e4 : u / 2 / 128 % 256 % 128 = u / 256 % 128 := by omega
  rw [e0, e2, e4]

/-! ### Behaviour of `decode_int` on each wire shape -/

lemma decode_int_loop_stop {b : Nat} (n result : Nat) (s : List Nat)
    (h : b &&& 0x80 = 0) :
    decode_int_loop n result b s = some (n, result, b, s) := by
  cases s <;> simp [decode_int_loop, h]

lemma decode_int_loop_stop3 (result b : Nat) (s : List Nat) :
    decode_int_loop 3 result b s = some (3, result, b, s) := by
  cases s <;> simp [decode_int_loop]

lemma decode_int_loop_cont {n b : Nat} (result b' : Nat) (rest : List Nat)
    (h : b &&& 0x80 ≠ 0) (hn : n < 3) :
    decode_int_loop n result b (b' :: rest) =
      decode_int_loop (n + 1) ((result <<< 7) ||| (b &&& 0x7f)) b' rest := by
  simp [decode_int_loop, h, hn]

lemma decode_int_len1 {x : Nat} (hx : x < 128) (r : List Nat) (sg : Bool) :
    decode_int (x :: r) sg = some ((x : Int), r) := by
  simp only [decode_int, decode_int_loop_stop 0 0 r (and_0x80_eq_zero hx)]
  norm_num

lemma decode_int_len2 {c0 x : Nat} (h0 : 128 ≤ c0) (h0' : c0 < 256)
    (hx : x < 128) (r : List Nat) (sg : Bool) :
    decode_int (c0 :: x :: r) sg = some ((((c0 % 128) * 128 + x : Nat) : Int), r) := by
  simp only [decode_int,
    decode_int_loop_cont (n := 0) 0 x r (and_0x80_ne_zero h0 h0') (by omega),
    decode_int_loop_stop 1 _ r (and_0x80_eq_zero hx)]
  rw [and_0x7f]
  norm_num [shiftLeft_or_eq (c0 % 128) (by omega : x < 2 ^ 7)]

lemma decode_int_len3 {c0 c1 x : Nat} (h0 : 128 ≤ c0) (h0' : c0 < 256)
    (h1 : 128 ≤ c1) (h1' : c1 < 256) (hx : x < 128) (r : List Nat) (sg : Bool) :
    decode_int (c0 :: c1 :: x :: r) sg =
      some (((((c0 % 128) * 128 + c1 % 128) * 128 + x : Nat) : Int), r) := by
  simp only [decode_int,
    decode_int_loop_cont (n := 0) 0 c1 (x :: r) (and_0x80_ne_zero h0 h0') (by omega),
    decode_int_loop_cont (n := 1) _ x r (and_0x80_ne_zero h1 h1') (by omega),
    decode_int_loop_stop 2 _ r (and_0x80_eq_zero hx)]
  rw [and_0x7f, and_0x7f]
  norm_num [shiftLeft_or_eq (c0 % 128) (by omega : c1 % 128 < 2 ^ 7),
    shiftLeft_or_eq ((c0 % 128) * 128 + c1 % 128) (by omega : x < 2 ^ 7)]

lemma decode_int_len4 {c0 c1 c2 d : Nat} (h0 : 128 ≤ c0) (h0' : c0 < 256)
    (h1 : 128 ≤ c1) (h1' : c1 < 256) (h2 : 128 ≤ c2) (h2' : c2 < 256)
    (hd : d < 256) (r : List Nat) (sg : Bool) :
    decode_int (c0 :: c1 :: c2 :: d :: r) sg =
      some
        (if 2 ^ 28 ≤ ((((c0 % 128) * 128 + c1 % 128) * 128 + c2 % 128) * 256 + d) then
          (if sg then
            (((((c0 % 128) * 128 + c1 % 128) * 128 + c2 % 128) * 256 + d : Nat) : Int)
              - 0x20000000
          else
            ((2 * ((((c0 % 128) * 128 + c1 % 128) * 128 + c2 % 128) * 256 + d)
              + 1 : Nat) : Int))
        else
          (((((c0 % 128) * 128 + c1 % 128) * 128 + c2 % 128) * 256 + d : Nat) : Int),
        r) := by
  simp only [decode_int,
    decode_int_loop_cont (n := 0) 0 c1 (c2 :: d :: r) (and_0x80_ne_zero h0 h0') (by omega),
    decode_int_loop_cont (n := 1) _ c2 (d :: r) (and_0x80_ne_zero h1 h1') (by omega),
    decode_int_loop_cont (n := 2) _ d r (and_0x80_ne_zero h2 h2') (by omega),
    decode_int_loop_stop3]
  rw [and_0x7f, and_0x7f, and_0x7f, Nat.zero_shiftLeft, Nat.zero_or]
  rw [shiftLeft_or_eq (c0 % 128) (by omega : c1 % 128 < 2 ^ 7),
    shiftLeft_or_eq ((c0 % 128) * 2 ^ 7 + c1 % 128) (by omega : c2 % 128 < 2 ^ 7)]
  norm_num [decode_int_loop_stop3]
  rw [shiftLeft_or_eq ((c0 % 128 * 128 + c1 % 128) * 128 + c2 % 128)
    (by omega : d < 2 ^ 8), shl1,
    and_top_bit (by omega :
      ((c0 % 128 * 128 + c1 % 128) * 128 + c2 % 128) * 2 ^ 8 + d < 2 ^ 29)]
  rcases Nat.lt_or_ge (((c0 % 128 * 128 + c1 % 128) * 128 + c2 % 128) * 2 ^ 8 + d)
      (2 ^ 28) with hlt | hge
  · have hx1 : ¬ (2 ^ 28 ≤ ((c0 % 128 * 128 + c1 % 128) * 128 + c2 % 128) * 2 ^ 8 + d) := by
      omega
    have hy1 : ¬ ((268435456 : Nat) ≤ ((c0 % 128 * 128 + c1 % 128) * 128 + c2 % 128) * 256 + d) := by
      omega
    rw [if_neg hx1, if_neg hy1]
    norm_num [Option.some.injEq, Prod.mk.injEq]
  · have hy1 : (268435456 : Nat) ≤ ((c0 % 128 * 128 + c1 % 128) * 128 + c2 % 128) * 256 + d := by
      omega
    rw [if_pos hge, if_pos hy1]
    cases sg <;> norm_num [Option.some.injEq, Prod.mk.injEq] <;> push_cast <;> omega

/-- Decoding the bytes of `encode_u29 u` accumulates exactly `u`: the decoder
returns `u` itself when bit 28 of `u` is clear, and `u - 2^29` (signed) or
`2*u + 1` (unsigned) when bit 28 is set. -/
lemma decode_encode_u29 (u : Nat) (hu : u < 2 ^ 29) (r : List Nat) (sg : Bool) :
    decode_int (encode_u29 u ++ r) sg =
      some (if u < 2 ^ 28 then (u : Int)
        else if sg then (u : Int) - 0x20000000
        else ((2 * u + 1 : Nat) : Int), r) := by
  rcases Nat.lt_or_ge u 0x80 with h1 | h1
  · rw [encode_u29_len1 (by omega)]
    simp only [List.cons_append, List.nil_append]
    rw [decode_int_len1 (show u < 128 by omega) r sg, if_pos (show u < 2 ^ 28 by omega)]
  · rcases Nat.lt_or_ge u 0x4000 with h2 | h2
    · rw [encode_u29_len2 (by omega) (by omega)]
      simp only [List.cons_append, List.nil_append]
      rw [decode_int_len2 (show 128 ≤ 128 + u / 128 by omega)
        (show 128 + u / 128 < 256 by omega) (show u % 128 < 128 by omega) r sg,
        if_pos (show u < 2 ^ 28 by omega)]
      norm_num [Option.some.injEq, Prod.mk.injEq]
      omega
    · rcases Nat.lt_or_ge u 0x200000 with h3 | h3
      · rw [encode_u29_len3 (by omega) (by omega)]
        simp only [List.cons_append, List.nil_append]
        rw [decode_int_len3 (show 128 ≤ 128 + u / 16384 by omega)
          (show 128 + u / 16384 < 256 by omega)
          (show 128 ≤ 128 + u / 128 % 128 by omega)
          (show 128 + u / 128 % 128 < 256 by omega)
          (show u % 128 < 128 by omega) r sg,
          if_pos (show u < 2 ^ 28 by omega)]
        norm_num [Option.some.injEq, Prod.mk.injEq]
        omega
      · rw [encode_u29_len4 (by omega) (by omega)]
        simp only [List.cons_append, List.nil_append]
        rw [decode_int_len4 (show 128 ≤ 128 + u / 4194304 by omega)
          (show 128 + u / 4194304 < 256 by omega)
          (show 128 ≤ 128 + u / 32768 % 128 by omega)
          (show 128 + u / 32768 % 128 < 256 by omega)
          (show 128 ≤ 128 + u / 256 % 128 by omega)
          (show 128 + u / 256 % 128 < 256 by omega)
          (show u % 256 < 256 by omega) r sg]
        split_ifs <;> norm_num [Option.some.injEq, Prod.mk.injEq] <;> push_cast <;>
          omega

/-- C1 (counterexample): the unsigned U29 round-trip claimed for all of
`[0, 2^29-1]` fails at `n = 2^28`: the unsigned encoding of `0x10000000`
decodes with `signed=false` to `0x20000001`, not `0x10000000`. -/
theorem u29_unsigned_roundtrip_cex :
    decode_int (encode_u29 0x10000000) false = some (0x20000001, []) ∧
    (0x20000001 : Int) ≠ (0x10000000 : Int) := by
  exact ⟨rfl, by decide⟩

/-- C1 (amended): for every `n ∈ [-2^28, 2^28-1]`, decoding the bytes of
`encode_int n` with `signed=true` returns exactly `n`; the unsigned variant
round-trips on `[0, 2^28-1]` only, and for `u ∈ [2^28, 2^29-1]` unsigned
decoding of the unsigned encoding returns `2*u + 1` instead of `u`. -/
theorem u29_roundtrip :
    (∀ n : Int, MIN_29B_INT ≤ n → n ≤ MAX_29B_INT →
      ∃ bs, encode_int n = .ok bs ∧ decode_int bs true = some (n, [])) ∧
    (∀ u : Nat, u < 2 ^ 28 →
      decode_int (encode_u29 u) false = some ((u : Int), [])) ∧
    (∀ u : Nat, 2 ^ 28 ≤ u → u < 2 ^ 29 →
      decode_int (encode_u29 u) false = some (((2 * u + 1 : Nat) : Int), [])) := by
  refine ⟨?_, ?_, ?_⟩
  · intro n hmin hmax
    simp only [MIN_29B_INT, MAX_29B_INT] at hmin hmax
    refine ⟨encode_u29 (if n < 0 then n + 0x20000000 else n).toNat, ?_, ?_⟩
    · unfold encode_int
      rw [if_neg (by simp only [MIN_29B_INT, MAX_29B_INT]; omega)]
    · have hd := decode_encode_u29 ((if n < 0 then n + 0x20000000 else n).toNat)
        (by split_ifs <;> omega) [] true
      rw [List.append_nil] at hd
      rw [hd]
      norm_num [Option.some.injEq, Prod.mk.injEq]
      split_ifs <;> omega
  · intro u hu
    have hd := decode_encode_u29 u (by omega) [] false
    rw [List.append_nil] at hd
    rw [hd, if_pos hu]
  · intro u hge hlt
    have hd := decode_encode_u29 u hlt [] false
    rw [List.append_nil] at hd
    rw [hd, if_neg (by omega)]
    norm_num

/-- C1 witness: the amended round-trip at `n = -300`, `u = 300` and
`u = 0x10000005`. -/
theorem u29_roundtrip_witness :
    (∃ bs, encode_int (-300) = .ok bs ∧ decode_int bs true = some (-300, [])) ∧
    decode_int (encode_u29 300) false = some ((300 : Int), []) ∧
    decode_int (encode_u29 0x10000005) false =
      some (((2 * 0x10000005 + 1 : Nat) : Int), []) :=
  ⟨u29_roundtrip.1 (-300) (by norm_num [MIN_29B_INT]) (by norm_num [MAX_29B_INT]),
   u29_roundtrip.2.1 300 (by norm_num),
   u29_roundtrip.2.2 0x10000005 (by norm_num) (by norm_num)⟩

/-- C2: on a 4-byte U29 wire form (three continuation bytes followed by one
final byte), `decode_int` returns the accumulated 29-bit value minus `2^29`
when bit 28 is set and `signed=true`, the value doubled plus one when bit 28
is set and `signed=false`, and the accumulated value itself (for both
signedness choices) when bit 28 is clear. -/
theorem decode_int_four_byte (c0 c1 c2 d : Nat) (r : List Nat)
    (h0 : 128 ≤ c0) (h0' : c0 < 256) (h1 : 128 ≤ c1) (h1' : c1 < 256)
    (h2 : 128 ≤ c2) (h2' : c2 < 256) (hd : d < 256) :
    (2 ^ 28 ≤ u29_acc c0 c1 c2 d →
      decode_int (c0 :: c1 :: c2 :: d :: r) true =
        some ((u29_acc c0 c1 c2 d : Int) - 2 ^ 29, r) ∧
      decode_int (c0 :: c1 :: c2 :: d :: r) false =
        some (((2 * u29_acc c0 c1 c2 d + 1 : Nat) : Int), r)) ∧
    (u29_acc c0 c1 c2 d < 2 ^ 28 →
      decode_int (c0 :: c1 :: c2 :: d :: r) true =
        some ((u29_acc c0 c1 c2 d : Int), r) ∧
      decode_int (c0 :: c1 :: c2 :: d :: r) false =
        some ((u29_acc c0 c1 c2 d : Int), r)) := by
  unfold u29_acc
  constructor
  · intro hbit
    refine ⟨?_, ?_⟩
    · rw [decode_int_len4 h0 h0' h1 h1' h2 h2' hd r true, if_pos hbit]
      norm_num
    · rw [decode_int_len4 h0 h0' h1 h1' h2 h2' hd r false, if_pos hbit]
      norm_num
  · intro hbit
    refine ⟨?_, ?_⟩
    · rw [decode_int_len4 h0 h0' h1 h1' h2 h2' hd r true, if_neg (by omega)]
    · rw [decode_int_len4 h0 h0' h1 h1' h2 h2' hd r false, if_neg (by omega)]

/-- C2 witness: the 4-byte forms `C0 80 80 00` (bit 28 set) and
`80 C0 80 00` (bit 28 clear). -/
theorem decode_int_four_byte_witness :
    (decode_int [0xC0, 0x80, 0x80, 0x00] true =
      some ((u29_acc 0xC0 0x80 0x80 0x00 : Int) - 2 ^ 29, []) ∧
     decode_int [0xC0, 0x80, 0x80, 0x00] false =
      some (((2 * u29_acc 0xC0 0x80 0x80 0x00 + 1 : Nat) : Int), [])) ∧
    (decode_int [0x80, 0xC0, 0x80, 0x00] true =
      some ((u29_acc 0x80 0xC0 0x80 0x00 : Int), []) ∧
     decode_int [0x80, 0xC0, 0x80, 0x00] false =
      some ((u29_acc 0x80 0xC0 0x80 0x00 : Int), [])) :=
  ⟨(decode_int_four_byte 0xC0 0x80 0x80 0x00 [] (by decide) (by decide) (by decide)
      (by decide) (by decide) (by decide) (by decide)).1 (by decide),
   (decode_int_four_byte 0x80 0xC0 0x80 0x00 [] (by decide) (by decide) (by decide)
      (by decide) (by decide) (by decide) (by decide)).2 (by decide)⟩

/-- C5: for in-range `n`, `encode_int n` succeeds and emits exactly the
minimal number of bytes for the folded 29-bit value `u` (`u = n`, or
`n + 2^29` when `n < 0`): 1 byte iff `u ≤ 0x7F`, 2 iff `u ≤ 0x3FFF`, 3 iff
`u ≤ 0x1FFFFF`, else 4; out-of-range `n` raises `OverflowError`. -/
theorem encode_int_minimal_length (n : Int) :
    (MIN_29B_INT ≤ n → n ≤ MAX_29B_INT →
      ∃ bs, encode_int n = .ok bs ∧
        bs.length =
          (if (if n < 0 then n + 0x20000000 else n).toNat ≤ 0x7f then 1
           else if (if n < 0 then n + 0x20000000 else n).toNat ≤ 0x3fff then 2
           else if (if n < 0 then n + 0x20000000 else n).toNat ≤ 0x1fffff then 3
           else 4)) ∧
    ((n < MIN_29B_INT ∨ MAX_29B_INT < n) → encode_int n = .error .overflowError) := by
  constructor
  · intro hmin hmax
    simp only [MIN_29B_INT, MAX_29B_INT] at hmin hmax
    refine ⟨encode_u29 (if n < 0 then n + 0x20000000 else n).toNat, ?_, ?_⟩
    · unfold encode_int
      rw [if_neg (by simp only [MIN_29B_INT, MAX_29B_INT]; omega)]
    · obtain ⟨u, hu, hub⟩ :
          ∃ u, (if n < 0 then n + 0x20000000 else n).toNat = u ∧ u < 2 ^ 29 :=
        ⟨_, rfl, by split_ifs <;> omega⟩
      rw [hu]
      rcases Nat.lt_or_ge u 0x80 with h1 | h1
      · rw [encode_u29_len1 (by omega), if_pos (by omega)]
        rfl
      · rcases Nat.lt_or_ge u 0x4000 with h2 | h2
        · rw [encode_u29_len2 (by omega) (by omega), if_neg (by omega),
            if_pos (by omega)]
          rfl
        · rcases Nat.lt_or_ge u 0x200000 with h3 | h3
          · rw [encode_u29_len3 (by omega) (by omega), if_neg (by omega),
              if_neg (by omega), if_pos (by omega)]
            rfl
          · rw [encode_u29_len4 (by omega) hub, if_neg (by omega),
              if_neg (by omega), if_neg (by omega)]
            rfl
  · intro hout
    unfold encode_int
    rw [if_pos (by simp only [MIN_29B_INT, MAX_29B_INT] at hout ⊢; omega)]

/-- C5 witness: `encode_int` at `n = -1` (4 bytes, since the folded value is
`2^29 - 1`) and at the out-of-range input `2^28`. -/
theorem encode_int_minimal_length_witness :
    (∃ bs, encode_int (-1) = .ok bs ∧
      bs.length =
        (if (if (-1 : Int) < 0 then (-1 : Int) + 0x20000000 else (-1 : Int)).toNat
            ≤ 0x7f then 1
         else if (if (-1 : Int) < 0 then (-1 : Int) + 0x20000000 else
            (-1 : Int)).toNat ≤ 0x3fff then 2
         else if (if (-1 : Int) < 0 then (-1 : Int) + 0x20000000 else
            (-1 : Int)).toNat ≤ 0x1fffff then 3
         else 4)) ∧
    encode_int 0x10000000 = .error .overflowError :=
  ⟨(encode_int_minimal_length (-1)).1 (by norm_num [MIN_29B_INT])
      (by norm_num [MAX_29B_INT]),
   (encode_int_minimal_length 0x10000000).2 (by norm_num [MIN_29B_INT, MAX_29B_INT])⟩

/-- The `decode_int` loop always terminates with a `some` result when the
remaining stream can supply its outstanding reads, and it consumes at most
`3 - n` further bytes. -/
lemma decode_int_loop_consumes (s : List Nat) :
    ∀ n result b, 3 - n ≤ s.length →
      ∃ out, decode_int_loop n result b s = some out ∧
        s.length ≤ out.2.2.2.length + (3 - n) ∧ out.2.2.2 <:+ s := by
  induction s with
  | nil =>
    intro n result b h
    simp only [List.length_nil] at h
    refine ⟨(n, result, b, []), ?_, by simp, List.suffix_refl _⟩
    simp only [decode_int_loop, if_neg (by omega : ¬ (b &&& 0x80 ≠ 0 ∧ n < 3))]
  | cons b' rest ih =>
    intro n result b h
    by_cases hc : b &&& 0x80 ≠ 0 ∧ n < 3
    · simp only [decode_int_loop, if_pos hc]
      obtain ⟨out, heq, hlen, hsuf⟩ :=
        ih (n + 1) ((result <<< 7) ||| (b &&& 0x7f)) b' (by simp at h ⊢; omega)
      refine ⟨out, heq, ?_, hsuf.trans (List.suffix_cons b' rest)⟩
      simp at hlen ⊢
      omega
    · simp only [decode_int_loop, if_neg hc]
      exact ⟨(n, result, b, b' :: rest), rfl, by simp, List.suffix_refl _⟩

/-- C9: on any stream holding at least 4 bytes, `decode_int` terminates with
a result, the remainder is a suffix of the input, and at most 4 bytes are
consumed (the continuation loop runs at most 3 iterations). -/
theorem decode_int_consumes_at_most_four (s : List Nat) (sg : Bool)
    (h4 : 4 ≤ s.length) :
    ∃ v r, decode_int s sg = some (v, r) ∧ r <:+ s ∧ s.length ≤ r.length + 4 := by
  match s with
  | [] => simp at h4
  | b0 :: rest =>
    obtain ⟨⟨n, result, b, s'⟩, heq, hlen, hsuf⟩ :=
      decode_int_loop_consumes rest 0 0 b0 (by simp at h4 ⊢; omega)
    have hsuf' : s' <:+ b0 :: rest := hsuf.trans (List.suffix_cons b0 rest)
    have hlen' : (b0 :: rest).length ≤ s'.length + 4 := by
      simp at hlen ⊢
      omega
    simp only [decode_int, heq]
    split_ifs
    · exact ⟨_, s', rfl, hsuf', hlen'⟩
    · exact ⟨_, s', rfl, hsuf', hlen'⟩
    · exact ⟨_, s', rfl, hsuf', hlen'⟩
    · exact ⟨_, s', rfl, hsuf', hlen'⟩

/-- C9 witness: a stream of four continuation-flagged bytes plus one spare
byte is decoded leaving the spare byte unread. -/
theorem decode_int_consumes_at_most_four_witness :
    ∃ v r, decode_int [0xFF, 0xFF, 0xFF, 0xFF, 0x07] true = some (v, r) ∧
      r <:+ [0xFF, 0xFF, 0xFF, 0xFF, 0x07] ∧
      ([0xFF, 0xFF, 0xFF, 0xFF, 0x07] : List Nat).length ≤ r.length + 4 :=
  decode_int_consumes_at_most_four [0xFF, 0xFF, 0xFF, 0xFF, 0x07] true (by simp)

/-- The key-partition loop raises `ValueError` whenever some key is neither
an integer nor a string. -/
lemma partitionKeys_none_of_other (ks : List Encoder.PyKey)
    (h : ∃ t, Encoder.PyKey.other t ∈ ks) :
    ∀ ik sk, Encoder.partitionKeys ks ik sk = none := by
  induction ks with
  | nil => rcases h with ⟨t, ht⟩; simp at ht
  | cons k ks ih =>
    intro ik sk
    rcases h with ⟨t, ht⟩
    cases k with
    | pint n =>
      have hm : Encoder.PyKey.other t ∈ ks := by simpa using ht
      simpa [Encoder.partitionKeys] using ih ⟨t, hm⟩ (ik ++ [n]) sk
    | pstr s =>
      have hm : Encoder.PyKey.other t ∈ ks := by simpa using ht
      simpa [Encoder.partitionKeys] using ih ⟨t, hm⟩ ik (sk ++ [.pstr s])
    | other t' => rfl

/-- C4 (counterexample): encoding `{"a": 1, 2: "x"}` (proxies disabled,
fresh context, 10 levels of recursion budget) does not produce the claimed
bytes `09 01 06 03 61 04 01 06 03 32 06 03 78 01`: `writeDict` raises
`KeyError` after writing `09 01 03 61 04 01 03 32` — associative keys carry
no `0x06` marker, and the value of the reclassified integer key `2` is
looked up under the string key `"2"`, which the dict does not contain. -/
theorem writeDict_reclassified_key_cex :
    Encoder.writeDict Encoder.defaultCfg 10 false
        [(.pstr [0x61], .pint 1), (.pint 2, .pstr [0x78])] Encoder.freshEnc =
      .error (.keyError,
        ⟨[0x09, 0x01, 0x03, 0x61, 0x04, 0x01, 0x03, 0x32],
         [[0x61], [0x32]],
         [.pdict [(.pstr [0x61], .pint 1), (.pint 2, .pstr [0x78])]]⟩) := rfl

/-- C4 (amended): the `l < x <= 0` range-check loop of `writeDict` never
reclassifies anything (its guard is unsatisfiable); integer keys are
reclassified — to their decimal string representation — only by the loop
that runs when the sorted integer keys do not start at 0; and on
`{"a": 1, 2: "x"}` this reclassifies `2` to `"2"`, emits the marker, the
empty dense-part header, the pair `"a" → 1` and the key header for `"2"`
(eight bytes `09 01 03 61 04 01 03 32`, with no type marker before
associative keys), and then raises `KeyError` at the value lookup `n["2"]`. -/
theorem writeDict_reclassification :
    (∀ (l : Nat) (f : Int → Encoder.PyKey) (fuel i : Nat) (ik : List Int)
        (sk : List Encoder.PyKey),
      Encoder.pyForDel (fun x => decide ((l : Int) < x) && decide (x ≤ 0)) f
        fuel i ik sk = (ik, sk)) ∧
    (∃ st', Encoder.writeDict Encoder.defaultCfg 10 false
        [(.pstr [0x61], .pint 1), (.pint 2, .pstr [0x78])] Encoder.freshEnc =
          .error (.keyError, st') ∧
      st'.stream = [0x09, 0x01, 0x03, 0x61, 0x04, 0x01, 0x03, 0x32] ∧
      st'.strings = [[0x61], [0x32]] ∧
      st'.objects = [.pdict [(.pstr [0x61], .pint 1), (.pint 2, .pstr [0x78])]]) := by
  constructor
  · intro l f fuel
    induction fuel with
    | zero => intro i ik sk; rfl
    | succ fuel ih =>
      intro i ik sk
      simp only [Encoder.pyForDel]
      split
      · next h =>
        have hP : (decide ((l : Int) < ik.get ⟨i, h⟩) &&
            decide (ik.get ⟨i, h⟩ ≤ 0)) = false := by
          by_cases hc : (l : Int) < ik.get ⟨i, h⟩
          · have hn : ¬ (ik.get ⟨i, h⟩ ≤ 0) := by omega
            rw [decide_eq_false hn, Bool.and_false]
          · rw [decide_eq_false hc, Bool.false_and]
        simp only [hP, Bool.false_eq_true, if_false]
        exact ih (i + 1) ik sk
      · rfl
  · exact ⟨⟨[0x09, 0x01, 0x03, 0x61, 0x04, 0x01, 0x03, 0x32],
      [[0x61], [0x32]],
      [.pdict [(.pstr [0x61], .pint 1), (.pint 2, .pstr [0x78])]]⟩,
      rfl, rfl, rfl, rfl⟩

/-- C6: with string references enabled, `_writeString` emits an interned
non-empty string as the bare header `U29(ref << 1)` with no body and with
every table unchanged, while a first occurrence interns the string and
emits `U29((len << 1) | 1)` followed by the raw bytes; a two-element list
containing `"a"` twice encodes to `09 05 01 06 03 61 06 00` (inline first
occurrence, reference index 0 for the second). -/
theorem string_reference_emission :
    (∀ (s : List Nat) (st : Encoder.EncState) (ref : Int) (bs : List Nat),
      s ≠ [] →
      getStringReference st.strings s = ref →
      ref ≠ -1 →
      encode_int (2 * ref) = .ok bs →
      Encoder._writeString true s st =
        .ok { st with stream := st.stream ++ bs }) ∧
    (∀ (s : List Nat) (st : Encoder.EncState) (bs : List Nat),
      s ≠ [] →
      getStringReference st.strings s = -1 →
      encode_int (((s.length <<< 1) ||| REFERENCE_BIT : Nat) : Int) = .ok bs →
      Encoder._writeString true s st =
        .ok { st with
          stream := st.stream ++ bs ++ s
          strings := st.strings ++ [s] }) ∧
    Encoder.writeElement Encoder.defaultCfg 10
        (.plist [.pstr [0x61], .pstr [0x61]]) Encoder.freshEnc =
      .ok ⟨[0x09, 0x05, 0x01, 0x06, 0x03, 0x61, 0x06, 0x00], [[0x61]],
           [.plist [.pstr [0x61], .pstr [0x61]]]⟩ := by
  refine ⟨?_, ?_, rfl⟩
  · intro s st ref bs hne hgsr href henc
    simp [Encoder._writeString, hgsr, href, Encoder._writeInteger, henc]
    rfl
  · intro s st bs hne hgsr henc
    have hidx : st.strings.indexOf? s = none := by
      cases hca : st.strings.indexOf? s with
      | none => rfl
      | some i =>
        exfalso
        simp only [getStringReference, hca] at hgsr
        omega
    simp only [Encoder._writeString, hgsr, if_true, Encoder._writeInteger, henc,
      addString, hidx]
    have hlen : ¬ (s.length = 0) := by
      cases s with
      | nil => exact absurd rfl hne
      | cons a t => simp
    rw [if_neg (by simp [hlen])]
    simp [Encoder.writeBytes, hne]

/-- C6 witness: the interned case at table `[["a"]]` (reference index 0) and
the fresh case at an empty table. -/
theorem string_reference_emission_witness :
    Encoder._writeString true [0x61] ⟨[], [[0x61]], []⟩ =
      .ok { (⟨[], [[0x61]], []⟩ : Encoder.EncState) with
        stream := ([] : List Nat) ++ [0x00] } ∧
    Encoder._writeString true [0x61] Encoder.freshEnc =
      .ok { Encoder.freshEnc with
        stream := Encoder.freshEnc.stream ++ [0x03] ++ [0x61]
        strings := Encoder.freshEnc.strings ++ [[0x61]] } :=
  ⟨string_reference_emission.1 [0x61] ⟨[], [[0x61]], []⟩ 0 [0x00]
      (by simp) rfl (by decide) rfl,
   string_reference_emission.2.1 [0x61] Encoder.freshEnc [0x03]
      (by simp) rfl rfl⟩

/-- C7: a mapping that contains the empty string as a key makes `writeDict`
raise `EncodeError` before anything else happens: no byte is written and no
table is touched, whatever the proxy setting, because the empty-key check
is the first statement of `writeDict`.  (`fuel + 1` grants the one
activation the check needs.) -/
theorem writeDict_empty_key_rejected (cfg : Encoder.EncCfg) (fuel : Nat)
    (up : Bool) (entries : List (Encoder.PyKey × Encoder.PyValue))
    (st : Encoder.EncState)
    (h : Encoder.dictContainsEmptyKey entries = true) :
    Encoder.writeDict cfg (fuel + 1) up entries st =
      .error (.encodeError, st) := by
  simp [Encoder.writeDict, Encoder.encWrite, h]

/-- C7 witness: the mapping `{"": 0}` is rejected with the state intact. -/
theorem writeDict_empty_key_rejected_witness :
    Encoder.writeDict Encoder.defaultCfg 1 false [(.pstr [], .pint 0)]
      Encoder.freshEnc = .error (.encodeError, Encoder.freshEnc) :=
  writeDict_empty_key_rejected Encoder.defaultCfg 0 false
    [(.pstr [], .pint 0)] Encoder.freshEnc (by decide)

/-- C8: the empty string is never interned: `Context.addString('')` returns
`-1` without appending to the string table; `writeUnicode` emits an empty
unicode string as the marker `0x06` followed by the single byte `0x01`,
leaving every table unchanged; and the decoder, on an inline string header
of length 0, returns the empty string without adding a table entry. -/
theorem empty_string_never_interned :
    (∀ tbl, addString [] tbl = (-1, tbl)) ∧
    (∀ (sr : Bool) (st : Encoder.EncState),
      Encoder.writeUnicode sr true [] st =
        .ok { st with stream := st.stream ++ [TYPE_STRING, REFERENCE_BIT] }) ∧
    (∀ (st : Decoder.DecState) (rest : List Nat),
      st.stream = 0x01 :: rest →
      Decoder.readUnicode st =
        some ([], { st with
          stream := rest
          trace := st.trace ++ [.readBytes 1] })) := by
  refine ⟨fun tbl => rfl, ?_, ?_⟩
  · intro sr st
    simp [Encoder.writeUnicode, Encoder.writeBytes]
  · intro st rest hs
    have hdec : decode_int st.stream false = some (1, rest) := by
      rw [hs]
      exact decode_int_len1 (by omega) rest false
    simp only [Decoder.readUnicode, Decoder._readLength, Decoder.readInteger, hdec]
    norm_num [REFERENCE_BIT]
    rw [hs]
    simp

/-- C8 witness: the decoder part at the stream `01 FF`. -/
theorem empty_string_never_interned_witness :
    Decoder.readUnicode ⟨[0x01, 0xFF], [], [], []⟩ =
      some ([], { (⟨[0x01, 0xFF], [], [], []⟩ : Decoder.DecState) with
        stream := [0xFF]
        trace := ([] : List Decoder.DecEvent) ++ [.readBytes 1] }) :=
  empty_string_never_interned.2.2 ⟨[0x01, 0xFF], [], [], []⟩ [0xFF] rfl

/-- C10: a mapping with no empty-string key but with a non-int/non-str key
(proxies disabled, mapping not previously referenced) makes `writeDict`
raise `ValueError` only after the `0x09` marker is on the stream and the
mapping is in the object reference table: stream and context are mutated
despite the failure. -/
theorem writeDict_bad_key_after_mutation (cfg : Encoder.EncCfg) (fuel : Nat)
    (entries : List (Encoder.PyKey × Encoder.PyValue)) (st : Encoder.EncState)
    (hempty : Encoder.dictContainsEmptyKey entries = false)
    (hbad : ∃ t, Encoder.PyKey.other t ∈ entries.map fun e => e.1)
    (href : Encoder.getObjectReference st (.pdict entries) = -1) :
    Encoder.writeDict cfg (fuel + 1) false entries st =
      .error (.valueError,
        { st with
          stream := st.stream ++ [TYPE_ARRAY]
          objects := st.objects ++ [.pdict entries] }) := by
  have hpart := partitionKeys_none_of_other (entries.map fun e => e.1) hbad [] []
  have href' : Encoder.getObjectReference
      { stream := st.stream ++ [TYPE_ARRAY], strings := st.strings,
        objects := st.objects } (.pdict entries) = -1 := href
  simp only [Encoder.writeDict, Encoder.encWrite, hempty, Bool.false_eq_true,
    if_false, Encoder.ctxAddObject, Encoder.writeBytes, href',
    Encoder.dictKeySplit, hpart]
  norm_num

/-- C10 witness: the mapping `{(): 1}` (one opaque non-int/non-str key) on a
fresh context. -/
theorem writeDict_bad_key_after_mutation_witness :
    Encoder.writeDict Encoder.defaultCfg 1 false [(.other 0, .pint 1)]
      Encoder.freshEnc =
      .error (.valueError,
        { Encoder.freshEnc with
          stream := Encoder.freshEnc.stream ++ [TYPE_ARRAY]
          objects := Encoder.freshEnc.objects ++
            [.pdict [(.other 0, .pint 1)]] }) :=
  writeDict_bad_key_after_mutation Encoder.defaultCfg 0 [(.other 0, .pint 1)]
    Encoder.freshEnc (by decide) ⟨0, by simp⟩ rfl

end Amf3
